import Mathlib

/-!
# Transcript formatter of `frontend/script.js`

A shallow embedding of the formatting code of the page script:

* `segundosASRTFormat` (lines 14-20), the `HH:MM:SS,mmm` time stamp,
* `generarSRT` (lines 22-34), the SubRip document built from groups of five words,
* the click handler of `viewTimestampedBtn` (lines 93-123), the view in buckets of ten seconds.

Conventions of the embedding.

* A JavaScript number that holds a time is an exact rational (`ℚ`); there is no rounding,
  no `NaN` and no infinity. `Math.floor` is the floor, `%` is the remainder of the truncated
  division (its sign is the sign of the dividend).
* An integer-valued number is printed as its decimal numeral, with a leading `-` when it is
  negative (`Number_toString`); the exponent form that the language switches to from `10^21`
  on is a matter of the floating-point representation and is outside the model.
* A JavaScript string is a `String`; the only lengths the code takes are lengths of numerals,
  where code units and code points coincide.
* Reading a property of `undefined` throws; the functions that index an array return
  `Except JsError _` and the access is written with `[i]?`.
-/

namespace Desgrabador

/-! ## Data model -/

/-- One entry of the `timestamps` array answered by the server. -/
structure TimedWord where
  word : String
  start_time : ℚ
  end_time : ℚ
deriving DecidableEq

/-- The exception a script can raise in the code modelled here. -/
inductive JsError where
  | typeError
deriving DecidableEq

deriving instance DecidableEq for Except

/-! ## Built-in operations of the language used by the script -/

/-- `Math.floor` on an exact rational. -/
def Math_floor (x : ℚ) : ℤ := Rat.floor x

/-- Rounding towards zero, the quotient that `%` uses. -/
def Math_trunc (x : ℚ) : ℤ := if 0 ≤ x then Rat.floor x else -Rat.floor (-x)

/-- The operator `a % b` on numbers: `a - b * trunc (a / b)`. The divisors in the script are
the constants 3600, 60 and 1, so the case `b = 0` does not arise. -/
def jsRem (a b : ℚ) : ℚ := a - b * (Math_trunc (a / b) : ℚ)

/-- `Number.prototype.toString` on an integer-valued number. -/
def Number_toString : ℤ → String
  | Int.ofNat m => Nat.repr m
  | Int.negSucc m => "-" ++ Nat.repr (m + 1)

/-- `String.prototype.padStart (targetLength, padString)`. -/
def padStart (s : String) (targetLength : Nat) (padString : String) : String :=
  let fillLen := targetLength - s.length
  if padString = "" then s
  else String.mk ((List.replicate fillLen padString.data).flatten.take fillLen) ++ s

/-- `Array.prototype.join (sep)` on an array of strings. -/
def Array_join (sep : String) : List String → String
  | [] => ""
  | [a] => a
  | a :: b :: rest => a ++ sep ++ Array_join sep (b :: rest)

/-- `Array.prototype.slice (start, stop)` for indices within `0 ..`. -/
def Array_slice {α : Type} (xs : List α) (start stop : Nat) : List α :=
  (xs.drop start).take (stop - start)

/-- White space and line terminators of the language, the characters `trim` removes. -/
def esEspacio (c : Char) : Bool :=
  let n := c.toNat
  n = 0x9 || n = 0xA || n = 0xB || n = 0xC || n = 0xD || n = 0x20 || n = 0xA0 ||
  n = 0x1680 || (0x2000 ≤ n && n ≤ 0x200A) || n = 0x2028 || n = 0x2029 || n = 0x202F ||
  n = 0x205F || n = 0x3000 || n = 0xFEFF

/-- `trim` on the characters of a string. -/
def trimChars (cs : List Char) : List Char :=
  ((cs.dropWhile esEspacio).reverse.dropWhile esEspacio).reverse

/-- `String.prototype.trim`. -/
def String_trim (s : String) : String := String.mk (trimChars s.data)

/-! ## `segundosASRTFormat` -/

/-- Lines 14-20. -/
def segundosASRTFormat (seconds : ℚ) : String :=
  let h := padStart (Number_toString (Math_floor (seconds / 3600))) 2 "0"
  let m := padStart (Number_toString (Math_floor (jsRem seconds 3600 / 60))) 2 "0"
  let s := padStart (Number_toString (Math_floor (jsRem seconds 60))) 2 "0"
  let ms := padStart (Number_toString (Math_floor (jsRem seconds 1 * 1000))) 3 "0"
  h ++ ":" ++ m ++ ":" ++ s ++ "," ++ ms

/-! ## `generarSRT` -/

/-- The `for` loop of lines 25-32, from the values of `i`, `index` and `srt` at its test. -/
def generarSRT.bucle (timestamps : List TimedWord) (i index : Nat) (srt : String) :
    Except JsError String :=
  if i < timestamps.length then
    let grupo := Array_slice timestamps i (i + 5)
    match grupo[0]?, grupo[grupo.length - 1]? with
    | some primero, some ultimo =>
      let start := primero.start_time
      let fin := ultimo.end_time
      let texto := Array_join " " (grupo.map (fun w => w.word))
      generarSRT.bucle timestamps (i + 5) (index + 1)
        (srt ++ (Number_toString index ++ "\n" ++ segundosASRTFormat start ++ " --> " ++
          segundosASRTFormat fin ++ "\n" ++ texto ++ "\n\n"))
    | _, _ => Except.error JsError.typeError
  else Except.ok srt
termination_by timestamps.length - i
decreasing_by omega

/-- Lines 22-34. -/
def generarSRT (timestamps : List TimedWord) : Except JsError String :=
  generarSRT.bucle timestamps 0 1 ""

/-! ## The handler of `viewTimestampedBtn` -/

/-- The constant of line 100. -/
def bloqueSegundos : ℚ := 10

/-- The variables the `forEach` of lines 106-116 updates. -/
structure Estado where
  bloques : List String
  textoBloque : String
  inicioBloque : ℚ
  finBloque : ℚ
deriving DecidableEq

/-- The template literal pushed at lines 111 and 119. -/
def bloqueTexto (inicioBloque finBloque : ℚ) (textoBloque : String) : String :=
  "[" ++ Number_toString (Math_floor (inicioBloque / 60)) ++ ":" ++
    padStart (Number_toString (Math_floor (jsRem inicioBloque 60))) 2 "0" ++ " - " ++
    Number_toString (Math_floor (finBloque / 60)) ++ ":" ++
    padStart (Number_toString (Math_floor (jsRem finBloque 60))) 2 "0" ++ "]\n" ++
    String_trim textoBloque

/-- The callback of `forEach`, lines 106-116. -/
def paso (st : Estado) (w : TimedWord) : Estado :=
  if w.start_time - st.inicioBloque ≤ bloqueSegundos then
    { st with textoBloque := st.textoBloque ++ (w.word ++ " "), finBloque := w.start_time }
  else
    { bloques := st.bloques ++ [bloqueTexto st.inicioBloque st.finBloque st.textoBloque]
      inicioBloque := w.start_time
      finBloque := w.start_time
      textoBloque := w.word ++ " " }

/-- Lines 100-120: the array `bloques` when line 122 is reached. -/
def bloquesTimestamped (timestamps : List TimedWord) : Except JsError (List String) :=
  match timestamps[0]? with
  | none => Except.error JsError.typeError
  | some w0 =>
    let st := timestamps.foldl paso
      { bloques := [], textoBloque := "", inicioBloque := w0.start_time,
        finBloque := w0.start_time }
    if st.textoBloque ≠ "" then
      Except.ok (st.bloques ++ [bloqueTexto st.inicioBloque st.finBloque st.textoBloque])
    else Except.ok st.bloques

/-- What a click leaves on the page: a dialog, or a new text in `subtitleDisplay`. -/
inductive Efecto where
  | alert (mensaje : String)
  | textContent (texto : String)
deriving DecidableEq

/-- Lines 93-123. The flag `showingTimestamps` set at line 98 is read nowhere in the script and
is left out. -/
def viewTimestamped (timestamps : List TimedWord) : Except JsError Efecto :=
  if timestamps.length = 0 then
    Except.ok (Efecto.alert "No hay datos de timestamps para mostrar.")
  else
    match bloquesTimestamped timestamps with
    | Except.error e => Except.error e
    | Except.ok bloques => Except.ok (Efecto.textContent (Array_join "\n\n" bloques))

/-! ## Specification-side definitions -/

/-- The decimal numeral of a natural number, from its list of decimal digits. -/
def decimal (n : ℕ) : String :=
  String.mk (if n = 0 then ['0'] else (Nat.digits 10 n).reverse.map Nat.digitChar)

/-- A number below one hundred written with exactly two digit characters. -/
def dosDigitos (n : ℕ) : String := String.mk [Nat.digitChar (n / 10), Nat.digitChar (n % 10)]

/-- The remainder `s mod m` of a non-negative quantity, in `[0, m)`. -/
def resto (s m : ℚ) : ℚ := s - m * (⌊s / m⌋ : ℚ)

/-- One subtitle block: its number, its two times and its line of text. -/
structure SrtBlock where
  index : ℕ
  start : ℚ
  fin : ℚ
  texto : String
deriving DecidableEq

/-- The four lines of a block: number, `start --> end`, text, blank line. -/
def SrtBlock.render (b : SrtBlock) : String :=
  decimal b.index ++ "\n" ++ segundosASRTFormat b.start ++ " --> " ++
    segundosASRTFormat b.fin ++ "\n" ++ b.texto ++ "\n\n"

/-- The strings of a list one after the other. -/
def concatenar : List String → String
  | [] => ""
  | a :: rest => a ++ concatenar rest

/-- The group number `k` (from 0) of the partition in consecutive groups of five. -/
def grupo (words : List TimedWord) (k : ℕ) : List TimedWord := (words.drop (5 * k)).take 5

/-- The block of a non-empty group: start of its first word, end of its last word, its words
joined by single spaces. -/
def bloqueDeGrupo (index : ℕ) : List TimedWord → Option SrtBlock
  | [] => none
  | w :: rest =>
    some { index := index
           start := w.start_time
           fin := ((w :: rest).getLast (List.cons_ne_nil w rest)).end_time
           texto := Array_join " " ((w :: rest).map (fun x => x.word)) }

/-- The blocks of `generateSrt` as the specification lists them: one per group of five,
numbered from 1. -/
def spec_generateSrt (words : List TimedWord) : List SrtBlock :=
  (List.range ((words.length + 4) / 5)).filterMap (fun k => bloqueDeGrupo (k + 1) (grupo words k))

/-- One bucket of the timestamped view: the `start_time` that anchors it, its observed end
and its words. -/
structure Bucket where
  anchor : ℚ
  fin : ℚ
  palabras : List TimedWord
deriving DecidableEq

/-- The label `[M:SS - M:SS]` of a bucket. -/
def etiqueta (inicio fin : ℚ) : String :=
  "[" ++ Number_toString (Math_floor (inicio / 60)) ++ ":" ++
    padStart (Number_toString (Math_floor (jsRem inicio 60))) 2 "0" ++ " - " ++
    Number_toString (Math_floor (fin / 60)) ++ ":" ++
    padStart (Number_toString (Math_floor (jsRem fin 60))) 2 "0" ++ "]"

/-- The text of a bucket: its words joined by single spaces, trimmed. -/
def Bucket.texto (b : Bucket) : String :=
  String_trim (Array_join " " (b.palabras.map (fun w => w.word)))

/-- A bucket as displayed: the label, a newline, the text. -/
def Bucket.render (b : Bucket) : String := etiqueta b.anchor b.fin ++ "\n" ++ b.texto

/-- The running bucket of the specification: a word within the window of the anchor is
appended and moves the observed end; another word closes the bucket and opens the next one;
the bucket left open at the end is emitted. -/
def agrupar (windowSeconds : ℚ) : Bucket → List TimedWord → List Bucket
  | actual, [] => [actual]
  | actual, w :: rest =>
    if w.start_time - actual.anchor ≤ windowSeconds then
      agrupar windowSeconds
        { actual with fin := w.start_time, palabras := actual.palabras ++ [w] } rest
    else
      actual :: agrupar windowSeconds
        { anchor := w.start_time, fin := w.start_time, palabras := [w] } rest

/-- The operation `groupByTimeWindow` of the specification. -/
def spec_groupByTimeWindow (words : List TimedWord) (windowSeconds : ℚ) : List Bucket :=
  match words with
  | [] => []
  | w :: rest =>
    agrupar windowSeconds { anchor := w.start_time, fin := w.start_time, palabras := [w] } rest

/-- A string that is not empty and has no white space at either end. -/
def sinEspaciosExtremos (s : String) : Bool :=
  match s.data.head?, s.data.getLast? with
  | some a, some b => !esEspacio a && !esEspacio b
  | _, _ => false

/-- The value of `textoBloque` after the words of a bucket. -/
def textoDe (ps : List TimedWord) : String := concatenar (ps.map (fun w => w.word ++ " "))

/-- A bucket that starts at its first word, ends at its last word and holds only words within
the window of its anchor. -/
def Bucket.Coherente (windowSeconds : ℚ) (b : Bucket) : Prop :=
  b.palabras.head?.map (fun w => w.start_time) = some b.anchor ∧
    b.palabras.getLast?.map (fun w => w.start_time) = some b.fin ∧
    ∀ x ∈ b.palabras, x.start_time - b.anchor ≤ windowSeconds

/-- Characters that are not empty and have no white space at either end. -/
def Limpia (l : List Char) : Prop :=
  ∃ a b, l.head? = some a ∧ l.getLast? = some b ∧ esEspacio a = false ∧ esEspacio b = false

/-! ## Numerals and padding -/

theorem toDigitsCore_eq_digits (fuel : ℕ) : ∀ (n : ℕ) (ds : List Char), n < fuel → 0 < n →
    Nat.toDigitsCore 10 fuel n ds = (Nat.digits 10 n).reverse.map Nat.digitChar ++ ds := by
  induction fuel with
  | zero => intro n ds h; omega
  | succ f ih =>
    intro n ds h hn
    rw [Nat.digits_def' (by norm_num) hn]
    simp only [Nat.toDigitsCore]
    by_cases h0 : n / 10 = 0
    · simp [h0]
    · rw [if_neg h0, ih (n / 10) _ (by omega) (by omega)]
      simp

theorem repr_eq_decimal (n : ℕ) : Nat.repr n = decimal n := by
  unfold Nat.repr decimal Nat.toDigits List.asString
  by_cases h : n = 0
  · subst h; rfl
  · rw [if_neg h, toDigitsCore_eq_digits (n + 1) n [] (by omega) (by omega)]
    simp

theorem padStart_dos : ∀ n < 100, padStart (Nat.repr n) 2 "0" = dosDigitos n := by
  decide

theorem Math_floor_eq (x : ℚ) : Math_floor x = ⌊x⌋ := rfl

theorem jsRem_eq_resto (a b : ℚ) (ha : 0 ≤ a) (hb : 0 < b) : jsRem a b = resto a b := by
  unfold jsRem resto Math_trunc
  rw [if_pos (div_nonneg ha hb.le)]
  rfl

theorem resto_nonneg (a b : ℚ) (hb : 0 < b) : 0 ≤ resto a b := by
  unfold resto
  have h := Int.floor_le (a / b)
  have h2 : b * (⌊a / b⌋ : ℚ) ≤ b * (a / b) := mul_le_mul_of_nonneg_left h hb.le
  rw [mul_div_cancel₀ a hb.ne'] at h2
  linarith

theorem resto_lt (a b : ℚ) (hb : 0 < b) : resto a b < b := by
  unfold resto
  have h := Int.lt_floor_add_one (a / b)
  have h2 : b * (a / b) < b * ((⌊a / b⌋ : ℚ) + 1) := mul_lt_mul_of_pos_left h hb
  rw [mul_div_cancel₀ a hb.ne'] at h2
  linarith

theorem Number_toString_floor (x : ℚ) (hx : 0 ≤ x) :
    Number_toString (Math_floor x) = Nat.repr ⌊x⌋₊ := by
  rw [Math_floor_eq]
  have h0 : 0 ≤ ⌊x⌋ := Int.floor_nonneg.mpr hx
  obtain ⟨k, hk⟩ := Int.eq_ofNat_of_zero_le h0
  have hk2 : ⌊x⌋₊ = k := by
    rw [← Int.floor_toNat, hk]; rfl
  rw [hk, hk2]
  rfl

/-! ## The time stamp -/

theorem concatenar_append (l1 l2 : List String) :
    concatenar (l1 ++ l2) = concatenar l1 ++ concatenar l2 := by
  induction l1 with
  | nil => simp [concatenar]
  | cons a r ih => simp [concatenar, ih, String.append_assoc]

theorem Number_toString_nat (n : ℕ) : Number_toString (n : ℤ) = decimal n := by
  rw [← repr_eq_decimal]; rfl

theorem grupo_ne_nil (ws : List TimedWord) (k : ℕ) (h : 5 * k < ws.length) : grupo ws k ≠ [] := by
  unfold grupo
  intro hc
  have := congrArg List.length hc
  simp at this
  omega

theorem bloqueDeGrupo_isSome (index : ℕ) (g : List TimedWord) (h : g ≠ []) :
    ∃ b, bloqueDeGrupo index g = some b := by
  cases g with
  | nil => exact absurd rfl h
  | cons w r => exact ⟨_, rfl⟩

theorem bucle_paso (ws : List TimedWord) (j : ℕ) (srt : String) (h : 5 * j < ws.length) :
    ∃ b, bloqueDeGrupo (j + 1) (grupo ws j) = some b ∧
      generarSRT.bucle ws (5 * j) (j + 1) srt =
        generarSRT.bucle ws (5 * (j + 1)) (j + 1 + 1) (srt ++ b.render) := by
  have hne := grupo_ne_nil ws j h
  rw [generarSRT.bucle, if_pos h]
  have hs : Array_slice ws (5 * j) (5 * j + 5) = grupo ws j := by
    unfold Array_slice grupo
    simp
  simp only [hs]
  cases hg : grupo ws j with
  | nil => exact absurd hg hne
  | cons w r =>
    refine ⟨_, rfl, ?_⟩
    have h0 : (w :: r)[0]? = some w := by simp
    have h1 : (w :: r)[(w :: r).length - 1]? = some ((w :: r).getLast (List.cons_ne_nil w r)) := by
      rw [List.getLast_eq_getElem]
      exact List.getElem?_eq_getElem _
    rw [h0, h1]
    simp only [SrtBlock.render]
    have hn : Number_toString ((j + 1 : ℕ) : ℤ) = decimal (j + 1) := Number_toString_nat (j + 1)
    rw [show 5 * (j + 1) = 5 * j + 5 by ring]
    rw [hn]

theorem bucle_spec (ws : List TimedWord) : ∀ (m j : ℕ) (srt : String),
    (ws.length + 4) / 5 = j + m →
    generarSRT.bucle ws (5 * j) (j + 1) srt =
      Except.ok (srt ++ concatenar (((List.range' j m).filterMap
        (fun k => bloqueDeGrupo (k + 1) (grupo ws k))).map SrtBlock.render)) := by
  intro m
  induction m with
  | zero =>
    intro j srt h
    rw [generarSRT.bucle, if_neg (by omega)]
    simp [concatenar]
  | succ m ih =>
    intro j srt h
    obtain ⟨b, hb, hstep⟩ := bucle_paso ws j srt (by omega)
    rw [hstep, ih (j + 1) _ (by omega)]
    simp [List.range'_succ, hb, concatenar, String.append_assoc]

theorem generarSRT_eq (ws : List TimedWord) :
    generarSRT ws = Except.ok (concatenar ((spec_generateSrt ws).map SrtBlock.render)) := by
  unfold generarSRT spec_generateSrt
  have h := bucle_spec ws ((ws.length + 4) / 5) 0 "" (by simp)
  simp only [Nat.mul_zero, Nat.zero_add] at h
  rw [h, List.range_eq_range']
  simp

theorem filterMap_map_some {α β : Type} (g : α → Option β) (l : List α)
    (h : ∀ x ∈ l, ∃ b, g x = some b) : (l.filterMap g).map some = l.map g := by
  induction l with
  | nil => rfl
  | cons a r ih =>
    obtain ⟨b, hb⟩ := h a (List.mem_cons_self a r)
    rw [List.filterMap_cons_some hb, List.map_cons, List.map_cons, hb,
      ih (fun x hx => h x (List.mem_cons_of_mem a hx))]

theorem spec_generateSrt_map_some (ws : List TimedWord) :
    (spec_generateSrt ws).map some =
      (List.range ((ws.length + 4) / 5)).map (fun k => bloqueDeGrupo (k + 1) (grupo ws k)) := by
  unfold spec_generateSrt
  apply filterMap_map_some
  intro k hk
  rw [List.mem_range] at hk
  exact bloqueDeGrupo_isSome _ _ (grupo_ne_nil ws k (by omega))

theorem spec_generateSrt_length (ws : List TimedWord) :
    (spec_generateSrt ws).length = (ws.length + 4) / 5 := by
  have h := congrArg List.length (spec_generateSrt_map_some ws)
  simpa using h

theorem spec_generateSrt_getElem? (ws : List TimedWord) (k : ℕ) (hk : k < (ws.length + 4) / 5) :
    ∃ b, (spec_generateSrt ws)[k]? = some b ∧ bloqueDeGrupo (k + 1) (grupo ws k) = some b := by
  have h := congrArg (fun l => l[k]?) (spec_generateSrt_map_some ws)
  simp only [List.getElem?_map] at h
  rw [List.getElem?_range hk] at h
  simp only [Option.map_some'] at h
  cases hb : (spec_generateSrt ws)[k]? with
  | none => rw [hb] at h; simp at h
  | some b =>
    rw [hb] at h
    simp only [Option.map_some'] at h
    exact ⟨b, rfl, (Option.some.inj h).symm⟩

theorem ceil_quinto (n : ℕ) : ⌈(n : ℚ) / 5⌉₊ = (n + 4) / 5 := by
  apply le_antisymm
  · rw [Nat.ceil_le, div_le_iff₀ (by norm_num)]
    have : n ≤ (n + 4) / 5 * 5 := by omega
    exact_mod_cast this
  · have h := Nat.le_ceil ((n : ℚ) / 5)
    rw [div_le_iff₀ (by norm_num)] at h
    have h2 : n ≤ ⌈(n : ℚ) / 5⌉₊ * 5 := by exact_mod_cast h
    omega

theorem bloqueDeGrupo_eq (index : ℕ) (g : List TimedWord) (b : SrtBlock)
    (h : bloqueDeGrupo index g = some b) :
    ∃ p u, g[0]? = some p ∧ g[g.length - 1]? = some u ∧
      b = { index := index, start := p.start_time, fin := u.end_time,
            texto := Array_join " " (g.map (fun x => x.word)) } := by
  cases g with
  | nil => simp [bloqueDeGrupo] at h
  | cons w r =>
    refine ⟨w, (w :: r).getLast (List.cons_ne_nil w r), by simp, ?_, ?_⟩
    · rw [List.getLast_eq_getElem]
      exact List.getElem?_eq_getElem _
    · simp only [bloqueDeGrupo, Option.some.injEq] at h
      exact h.symm

theorem grupo_getElem? (ws : List TimedWord) (k i : ℕ) (hi : i < 5) :
    (grupo ws k)[i]? = ws[5 * k + i]? := by
  unfold grupo
  rw [List.getElem?_take_of_lt hi, List.getElem?_drop]

theorem grupo_length (ws : List TimedWord) (k : ℕ) :
    (grupo ws k).length = min 5 (ws.length - 5 * k) := by
  unfold grupo
  simp

theorem grupo_eq_slice (ws : List TimedWord) (k : ℕ) :
    grupo ws k = Array_slice ws (5 * k) (min (5 * k + 5) ws.length) := by
  unfold grupo Array_slice
  rw [List.take_eq_take]
  simp
  omega

theorem bloque_k (ws : List TimedWord) (k : ℕ) (hk : k < (ws.length + 4) / 5) :
    ∃ primero ultimo, ws[5 * k]? = some primero ∧
      ws[min (5 * k + 5) ws.length - 1]? = some ultimo ∧
      (spec_generateSrt ws)[k]? = some
        { index := k + 1, start := primero.start_time, fin := ultimo.end_time,
          texto := Array_join " "
            ((Array_slice ws (5 * k) (min (5 * k + 5) ws.length)).map (fun x => x.word)) } := by
  obtain ⟨b, hb1, hb2⟩ := spec_generateSrt_getElem? ws k hk
  obtain ⟨p, u, hp, hu, hb⟩ := bloqueDeGrupo_eq _ _ _ hb2
  rw [grupo_getElem? ws k 0 (by norm_num)] at hp
  rw [grupo_length, grupo_getElem? ws k _ (by omega)] at hu
  refine ⟨p, u, hp, ?_, ?_⟩
  · rw [← hu]
    congr 1
    omega
  · rw [hb1, hb, grupo_eq_slice]

/-! ## The blocks of `generarSRT` -/

theorem Array_join_append (sep : String) (l1 l2 : List String) (h1 : l1 ≠ []) (h2 : l2 ≠ []) :
    Array_join sep (l1 ++ l2) = Array_join sep l1 ++ sep ++ Array_join sep l2 := by
  induction l1 with
  | nil => exact absurd rfl h1
  | cons a r ih =>
    cases r with
    | nil =>
      cases l2 with
      | nil => exact absurd rfl h2
      | cons b r2 => simp [Array_join]
    | cons c r =>
      have := ih (List.cons_ne_nil c r)
      simp only [List.cons_append] at this ⊢
      simp only [Array_join, this, String.append_assoc]

theorem Array_join_flatten (sep : String) (L : List (List String)) (h : ∀ l ∈ L, l ≠ []) :
    Array_join sep (L.map (Array_join sep)) = Array_join sep L.flatten := by
  induction L with
  | nil => rfl
  | cons l r ih =>
    have hl : l ≠ [] := h l (List.mem_cons_self l r)
    have hr : ∀ x ∈ r, x ≠ [] := fun x hx => h x (List.mem_cons_of_mem l hx)
    cases r with
    | nil => simp [Array_join]
    | cons l2 r2 =>
      have hne : (l2 :: r2).flatten ≠ [] := by
        have := hr l2 (List.mem_cons_self l2 r2)
        simp [this]
      rw [List.flatten_cons, Array_join_append sep l _ hl hne, ← ih hr]
      simp [Array_join]

theorem grupos_flatten (ws : List TimedWord) (m : ℕ) :
    ((List.range m).map (grupo ws)).flatten = ws.take (5 * m) := by
  induction m with
  | zero => simp
  | succ m ih =>
    rw [List.range_succ, List.map_append, List.flatten_append, ih]
    simp only [List.map_cons, List.map_nil, List.flatten_cons, List.flatten_nil, List.append_nil]
    unfold grupo
    rw [show 5 * (m + 1) = 5 * m + 5 by ring, List.take_add]

theorem bloqueDeGrupo_texto (index : ℕ) (g : List TimedWord) :
    (bloqueDeGrupo index g).map (fun b => b.texto) =
      if g = [] then none else some (Array_join " " (g.map (fun x => x.word))) := by
  cases g with
  | nil => rfl
  | cons w r => rfl

theorem spec_generateSrt_textos (ws : List TimedWord) :
    (spec_generateSrt ws).map (fun b => b.texto) =
      (List.range ((ws.length + 4) / 5)).map
        (fun k => Array_join " " ((grupo ws k).map (fun x => x.word))) := by
  have h := congrArg (List.map (Option.map (fun b : SrtBlock => b.texto)))
    (spec_generateSrt_map_some ws)
  simp only [List.map_map] at h
  have h2 : (List.range ((ws.length + 4) / 5)).map
      (Option.map (fun b : SrtBlock => b.texto) ∘ fun k => bloqueDeGrupo (k + 1) (grupo ws k)) =
      (List.range ((ws.length + 4) / 5)).map
        (some ∘ fun k => Array_join " " ((grupo ws k).map (fun x => x.word))) := by
    apply List.map_congr_left
    intro k hk
    rw [List.mem_range] at hk
    simp only [Function.comp, bloqueDeGrupo_texto]
    rw [if_neg (grupo_ne_nil ws k (by omega))]
  rw [h2] at h
  have h3 : (Option.map (fun b : SrtBlock => b.texto) ∘ some) = some ∘ (fun b => b.texto) := by
    funext b; rfl
  rw [h3, ← List.map_map, ← List.map_map] at h
  exact List.map_injective_iff.mpr (Option.some_injective _) h

/-- C1. On a non-empty sequence of `n` words `generarSRT` emits exactly `ceil (n / 5)` blocks
(at least one), and the first line of block number `k` (counted from 1) is the decimal numeral
`k`. -/
theorem generarSRT_indices (ws : List TimedWord) (hne : ws ≠ []) :
    generarSRT ws = Except.ok (concatenar ((spec_generateSrt ws).map SrtBlock.render)) ∧
      (spec_generateSrt ws).length = ⌈(ws.length : ℚ) / 5⌉₊ ∧
      1 ≤ (spec_generateSrt ws).length ∧
      ∀ k, k < ⌈(ws.length : ℚ) / 5⌉₊ → ∃ b, (spec_generateSrt ws)[k]? = some b ∧
        b.index = k + 1 ∧
        b.render = decimal (k + 1) ++ "\n" ++ segundosASRTFormat b.start ++ " --> " ++
          segundosASRTFormat b.fin ++ "\n" ++ b.texto ++ "\n\n" := by
  have hlen : 0 < ws.length := List.length_pos.mpr hne
  refine ⟨generarSRT_eq ws, ?_, ?_, ?_⟩
  · rw [spec_generateSrt_length, ceil_quinto]
  · rw [spec_generateSrt_length]; omega
  · intro k hk
    rw [ceil_quinto] at hk
    obtain ⟨p, u, _, _, hb⟩ := bloque_k ws k hk
    exact ⟨_, hb, rfl, rfl⟩

theorem generarSRT_indices_witness :
    ([⟨"a", 0, 1⟩] : List TimedWord) ≠ [] ∧
      (spec_generateSrt [⟨"a", 0, 1⟩]).length = ⌈(([⟨"a", 0, 1⟩] : List TimedWord).length : ℚ) / 5⌉₊ :=
  ⟨by simp, (generarSRT_indices [⟨"a", 0, 1⟩] (by simp)).2.1⟩

/-- C2. The text lines of the blocks of `generarSRT`, joined in order by single spaces, are the
`word` fields of the input joined in order by single spaces. -/
theorem generarSRT_textos (ws : List TimedWord) :
    generarSRT ws = Except.ok (concatenar ((spec_generateSrt ws).map SrtBlock.render)) ∧
      Array_join " " ((spec_generateSrt ws).map (fun b => b.texto)) =
        Array_join " " (ws.map (fun w => w.word)) := by
  refine ⟨generarSRT_eq ws, ?_⟩
  rw [spec_generateSrt_textos]
  have h1 : (List.range ((ws.length + 4) / 5)).map
      (fun k => Array_join " " ((grupo ws k).map (fun x => x.word))) =
      (((List.range ((ws.length + 4) / 5)).map (grupo ws)).map
        (List.map (fun x => x.word))).map (Array_join " ") := by
    simp [List.map_map, Function.comp]
  rw [h1, Array_join_flatten]
  · rw [← List.map_flatten, grupos_flatten, List.take_of_length_le (by omega)]
  · intro l hl
    simp only [List.mem_map, List.mem_range] at hl
    obtain ⟨g, ⟨k, hk, rfl⟩, rfl⟩ := hl
    have := grupo_ne_nil ws k (by omega)
    simpa using this

/-- C3. On a non-empty sequence of `n` words, block number `k + 1` of `generarSRT` is the
text `k+1`, newline, `S --> E`, newline, `T`, blank line, with `S` the stamp of the
`start_time` of word `5 k` (from 0), `E` the stamp of the `end_time` of word
`min (5 k + 5) n - 1` and `T` the words in between joined by single spaces; seven words give
two blocks, words 1-5 and words 6-7, the second ending at the `end_time` of word 7. -/
theorem generarSRT_bloque (ws : List TimedWord) (hne : ws ≠ []) :
    generarSRT ws = Except.ok (concatenar ((spec_generateSrt ws).map SrtBlock.render)) ∧
      ((spec_generateSrt ws).map SrtBlock.render).length = ⌈(ws.length : ℚ) / 5⌉₊ ∧
      1 ≤ ((spec_generateSrt ws).map SrtBlock.render).length ∧
      (∀ k, k < ⌈(ws.length : ℚ) / 5⌉₊ → ∃ primero ultimo,
        ws[5 * k]? = some primero ∧ ws[min (5 * k + 5) ws.length - 1]? = some ultimo ∧
        ((spec_generateSrt ws).map SrtBlock.render)[k]? = some
          (decimal (k + 1) ++ "\n" ++ segundosASRTFormat primero.start_time ++ " --> " ++
            segundosASRTFormat ultimo.end_time ++ "\n" ++
            Array_join " "
              ((Array_slice ws (5 * k) (min (5 * k + 5) ws.length)).map (fun w => w.word)) ++
            "\n\n")) ∧
      ∀ w1 w2 w3 w4 w5 w6 w7 : TimedWord,
        generarSRT [w1, w2, w3, w4, w5, w6, w7] = Except.ok
          (("1\n" ++ segundosASRTFormat w1.start_time ++ " --> " ++
              segundosASRTFormat w5.end_time ++ "\n" ++
              (w1.word ++ " " ++ (w2.word ++ " " ++ (w3.word ++ " " ++
                (w4.word ++ " " ++ w5.word)))) ++ "\n\n") ++
            ("2\n" ++ segundosASRTFormat w6.start_time ++ " --> " ++
              segundosASRTFormat w7.end_time ++ "\n" ++ (w6.word ++ " " ++ w7.word) ++
              "\n\n")) := by
  have hlen : 0 < ws.length := List.length_pos.mpr hne
  refine ⟨generarSRT_eq ws, ?_, ?_, ?_, ?_⟩
  · rw [List.length_map, spec_generateSrt_length, ceil_quinto]
  · rw [List.length_map, spec_generateSrt_length]; omega
  · intro k hk
    rw [ceil_quinto] at hk
    obtain ⟨p, u, hp, hu, hb⟩ := bloque_k ws k hk
    refine ⟨p, u, hp, hu, ?_⟩
    rw [List.getElem?_map, hb]
    rfl
  · intro w1 w2 w3 w4 w5 w6 w7
    rw [generarSRT_eq]
    have h1 : decimal 1 = "1" := by rw [← repr_eq_decimal]; decide
    have h2 : decimal 2 = "2" := by rw [← repr_eq_decimal]; decide
    simp [spec_generateSrt, List.range_succ, grupo, bloqueDeGrupo, SrtBlock.render, concatenar,
      Array_join, h1, h2]

theorem generarSRT_bloque_witness :
    ([⟨"a", 0, 1⟩] : List TimedWord) ≠ [] ∧
      ((spec_generateSrt [⟨"a", 0, 1⟩]).map SrtBlock.render).length =
        ⌈(([⟨"a", 0, 1⟩] : List TimedWord).length : ℚ) / 5⌉₊ :=
  ⟨by simp, (generarSRT_bloque [⟨"a", 0, 1⟩] (by simp)).2.1⟩

theorem trimChars_eq (cs : List Char) :
    trimChars cs = (cs.dropWhile esEspacio).rdropWhile esEspacio := rfl

theorem trimChars_concat (cs : List Char) (c : Char) (hc : esEspacio c = true) :
    trimChars (cs ++ [c]) = trimChars cs := by
  rw [trimChars_eq, trimChars_eq]
  induction cs with
  | nil => simp [List.dropWhile, hc, List.rdropWhile_nil]
  | cons x l ih =>
    by_cases hx : esEspacio x = true
    · simp only [List.cons_append, List.dropWhile_cons_of_pos hx]
      exact ih
    · simp only [List.cons_append, List.dropWhile_cons_of_neg hx]
      rw [← List.cons_append, List.rdropWhile_concat_pos _ _ _ hc]

theorem String_trim_append_space (s : String) : String_trim (s ++ " ") = String_trim s := by
  unfold String_trim
  rw [String.data_append]
  exact congrArg String.mk (trimChars_concat s.data ' ' (by decide))

theorem textoDe_append (ps : List TimedWord) (w : TimedWord) :
    textoDe (ps ++ [w]) = textoDe ps ++ (w.word ++ " ") := by
  unfold textoDe
  rw [List.map_append, concatenar_append]
  simp [concatenar]

theorem textoDe_eq (ps : List TimedWord) (h : ps ≠ []) :
    textoDe ps = Array_join " " (ps.map (fun w => w.word)) ++ " " := by
  induction ps with
  | nil => exact absurd rfl h
  | cons w r ih =>
    cases r with
    | nil => simp [textoDe, concatenar, Array_join]
    | cons w2 r2 =>
      have := ih (List.cons_ne_nil w2 r2)
      unfold textoDe at this ⊢
      simp only [List.map_cons, concatenar, Array_join] at this ⊢
      rw [this]
      simp [String.append_assoc]

theorem textoDe_ne_empty (ps : List TimedWord) (h : ps ≠ []) : textoDe ps ≠ "" := by
  rw [textoDe_eq ps h]
  intro hc
  have := congrArg String.length hc
  simp [String.length_append] at this
  exact absurd this.2 (by decide)

theorem bloqueTexto_eq (b : Bucket) (h : b.palabras ≠ []) :
    bloqueTexto b.anchor b.fin (textoDe b.palabras) = b.render := by
  unfold bloqueTexto Bucket.render Bucket.texto etiqueta
  rw [textoDe_eq _ h, String_trim_append_space]
  have : "]\n" = "]" ++ "\n" := by decide
  rw [this]
  simp only [String.append_assoc]

/-! ## The `forEach` of the timestamped view -/

theorem foldl_paso (rest : List TimedWord) : ∀ (st : Estado) (actual : Bucket),
    st.inicioBloque = actual.anchor → st.finBloque = actual.fin →
    st.textoBloque = textoDe actual.palabras → actual.palabras ≠ [] →
    (rest.foldl paso st).textoBloque ≠ "" ∧
    (rest.foldl paso st).bloques ++
        [bloqueTexto (rest.foldl paso st).inicioBloque (rest.foldl paso st).finBloque
          (rest.foldl paso st).textoBloque] =
      st.bloques ++ (agrupar bloqueSegundos actual rest).map Bucket.render := by
  induction rest with
  | nil =>
    intro st actual h1 h2 h3 h4
    simp only [List.foldl_nil, agrupar, List.map_cons, List.map_nil]
    rw [h1, h2, h3, bloqueTexto_eq actual h4]
    exact ⟨textoDe_ne_empty _ h4, rfl⟩
  | cons w r ih =>
    intro st actual h1 h2 h3 h4
    simp only [List.foldl_cons, agrupar]
    by_cases hw : w.start_time - actual.anchor ≤ bloqueSegundos
    · rw [if_pos hw]
      have hp : paso st w =
          { bloques := st.bloques
            textoBloque := st.textoBloque ++ (w.word ++ " ")
            inicioBloque := st.inicioBloque
            finBloque := w.start_time } := by
        unfold paso
        rw [h1, if_pos hw]
      have := ih (paso st w)
        { actual with fin := w.start_time, palabras := actual.palabras ++ [w] }
        (by rw [hp]; exact h1) (by rw [hp]) (by rw [hp, textoDe_append, ← h3]) (by simp)
      rw [hp] at this ⊢
      exact this
    · rw [if_neg hw]
      have hp : paso st w =
          { bloques := st.bloques ++ [bloqueTexto st.inicioBloque st.finBloque st.textoBloque]
            inicioBloque := w.start_time
            finBloque := w.start_time
            textoBloque := w.word ++ " " } := by
        unfold paso
        rw [h1, if_neg hw]
      have := ih (paso st w) { anchor := w.start_time, fin := w.start_time, palabras := [w] }
        (by rw [hp]) (by rw [hp]) (by rw [hp]; simp [textoDe, concatenar]) (by simp)
      rw [hp] at this ⊢
      refine ⟨this.1, ?_⟩
      rw [this.2, h1, h2, h3, bloqueTexto_eq actual h4]
      simp

theorem bloquesTimestamped_eq (ws : List TimedWord) (hne : ws ≠ []) :
    bloquesTimestamped ws =
      Except.ok ((spec_groupByTimeWindow ws bloqueSegundos).map Bucket.render) := by
  cases ws with
  | nil => exact absurd rfl hne
  | cons w0 rest =>
    unfold bloquesTimestamped spec_groupByTimeWindow
    simp only [List.getElem?_cons_zero, List.foldl_cons]
    have hp : paso ⟨[], "", w0.start_time, w0.start_time⟩ w0 =
        ⟨[], "" ++ (w0.word ++ " "), w0.start_time, w0.start_time⟩ := by
      unfold paso
      rw [if_pos (by simp [bloqueSegundos])]
    rw [hp]
    have := foldl_paso rest ⟨[], "" ++ (w0.word ++ " "), w0.start_time, w0.start_time⟩
      { anchor := w0.start_time, fin := w0.start_time, palabras := [w0] }
      rfl rfl (by simp [textoDe, concatenar]) (by simp)
    rw [if_pos this.1, this.2]
    simp

theorem viewTimestamped_eq (ws : List TimedWord) (hne : ws ≠ []) :
    viewTimestamped ws = Except.ok (Efecto.textContent
      (Array_join "\n\n" ((spec_groupByTimeWindow ws bloqueSegundos).map Bucket.render))) := by
  unfold viewTimestamped
  rw [if_neg (by simpa using hne), bloquesTimestamped_eq ws hne]

/-! ## The buckets -/

theorem Bucket.Coherente.ne_nil {W : ℚ} {b : Bucket} (h : b.Coherente W) : b.palabras ≠ [] := by
  intro hc
  have := h.1
  rw [hc] at this
  simp at this

theorem agrupar_props (W : ℚ) (hW : 0 ≤ W) (rest : List TimedWord) :
    ∀ actual : Bucket, actual.Coherente W →
      ((agrupar W actual rest).map (fun b => b.palabras)).flatten = actual.palabras ++ rest ∧
      (∀ b ∈ agrupar W actual rest, b.Coherente W) ∧
      (agrupar W actual rest).head?.map (fun b => b.anchor) = some actual.anchor ∧
      List.Chain' (fun b1 b2 : Bucket => W < b2.anchor - b1.anchor) (agrupar W actual rest) := by
  induction rest with
  | nil =>
    intro actual hc
    simp [agrupar, hc]
  | cons w r ih =>
    intro actual hc
    have hne := hc.ne_nil
    by_cases hw : w.start_time - actual.anchor ≤ W
    · simp only [agrupar, if_pos hw]
      have hc2 : Bucket.Coherente W
          { actual with fin := w.start_time, palabras := actual.palabras ++ [w] } := by
        refine ⟨?_, ?_, ?_⟩
        · simp only [List.head?_append]
          cases hp : actual.palabras with
          | nil => exact absurd hp hne
          | cons a l =>
            have := hc.1
            rw [hp] at this
            simpa using this
        · simp
        · intro x hx
          rw [List.mem_append] at hx
          rcases hx with hx | hx
          · exact hc.2.2 x hx
          · simp only [List.mem_singleton] at hx
            rw [hx]; exact hw
      obtain ⟨i1, i2, i3, i4⟩ := ih _ hc2
      refine ⟨?_, i2, i3, i4⟩
      rw [i1]
      simp
    · simp only [agrupar, if_neg hw]
      have hc2 : Bucket.Coherente W
          { anchor := w.start_time, fin := w.start_time, palabras := [w] } := by
        refine ⟨by simp, by simp, ?_⟩
        intro x hx
        simp only [List.mem_singleton] at hx
        rw [hx]; simpa using hW
      obtain ⟨i1, i2, i3, i4⟩ := ih _ hc2
      refine ⟨?_, ?_, by simp, ?_⟩
      · simp only [List.map_cons, List.flatten_cons, i1]
        simp
      · intro b hb
        rw [List.mem_cons] at hb
        rcases hb with hb | hb
        · rw [hb]; exact hc
        · exact i2 b hb
      · rw [List.chain'_cons']
        refine ⟨?_, i4⟩
        intro b hb
        rw [hb] at i3
        simp only [Option.map_some', Option.some.injEq] at i3
        rw [i3]
        exact not_le.mp hw

theorem spec_groupByTimeWindow_props (W : ℚ) (hW : 0 ≤ W) (ws : List TimedWord) :
    ((spec_groupByTimeWindow ws W).map (fun b => b.palabras)).flatten = ws ∧
      (∀ b ∈ spec_groupByTimeWindow ws W, b.Coherente W) ∧
      (spec_groupByTimeWindow ws W).head?.map (fun b => b.anchor) =
        ws.head?.map (fun w => w.start_time) ∧
      List.Chain' (fun b1 b2 : Bucket => W < b2.anchor - b1.anchor)
        (spec_groupByTimeWindow ws W) := by
  cases ws with
  | nil => simp [spec_groupByTimeWindow]
  | cons w rest =>
    have hc : Bucket.Coherente W
        { anchor := w.start_time, fin := w.start_time, palabras := [w] } := by
      refine ⟨by simp, by simp, ?_⟩
      intro x hx
      simp only [List.mem_singleton] at hx
      rw [hx]; simpa using hW
    obtain ⟨i1, i2, i3, i4⟩ := agrupar_props W hW rest _ hc
    exact ⟨by simpa [spec_groupByTimeWindow] using i1, i2, i3, i4⟩

theorem palabras_sublist (W : ℚ) (hW : 0 ≤ W) (ws : List TimedWord) (b : Bucket)
    (hb : b ∈ spec_groupByTimeWindow ws W) : b.palabras.Sublist ws := by
  have h := (spec_groupByTimeWindow_props W hW ws).1
  have hm : b.palabras ∈ (spec_groupByTimeWindow ws W).map (fun b => b.palabras) :=
    List.mem_map_of_mem _ hb
  have := List.sublist_flatten_of_mem hm
  rwa [h] at this

/-- C7. On the empty sequence the handler stops at its guard: it answers the dialog
"No hay datos de timestamps para mostrar.", shows no text, raises nothing, and there is no
bucket; the read of the first word, which would throw on the empty array, is never reached. -/
theorem viewTimestamped_vacio :
    viewTimestamped [] = Except.ok (Efecto.alert "No hay datos de timestamps para mostrar.") ∧
      (∀ e, viewTimestamped [] ≠ Except.error e) ∧
      (∀ t, viewTimestamped [] ≠ Except.ok (Efecto.textContent t)) ∧
      spec_groupByTimeWindow [] 10 = [] ∧
      bloquesTimestamped [] = Except.error JsError.typeError := by
  refine ⟨rfl, ?_, ?_, rfl, rfl⟩
  · intro e h
    simp [viewTimestamped] at h
  · intro t h
    simp [viewTimestamped] at h

theorem etiqueta_nonneg (a f : ℚ) (ha : 0 ≤ a) (hf : 0 ≤ f) :
    etiqueta a f = "[" ++ decimal ⌊a / 60⌋₊ ++ ":" ++ dosDigitos ⌊resto a 60⌋₊ ++ " - " ++
      decimal ⌊f / 60⌋₊ ++ ":" ++ dosDigitos ⌊resto f 60⌋₊ ++ "]" := by
  have h60 : (0 : ℚ) < 60 := by norm_num
  have a2 := resto_lt a 60 h60
  have f2 := resto_lt f 60 h60
  have ha60 : ⌊resto a 60⌋₊ < 60 := by
    rw [Nat.floor_lt (resto_nonneg a 60 h60)]; exact_mod_cast a2
  have hf60 : ⌊resto f 60⌋₊ < 60 := by
    rw [Nat.floor_lt (resto_nonneg f 60 h60)]; exact_mod_cast f2
  unfold etiqueta
  rw [jsRem_eq_resto a 60 ha h60, jsRem_eq_resto f 60 hf h60,
    Number_toString_floor _ (by positivity), Number_toString_floor _ (resto_nonneg a 60 h60),
    Number_toString_floor _ (by positivity), Number_toString_floor _ (resto_nonneg f 60 h60),
    padStart_dos _ (by omega), padStart_dos _ (by omega), repr_eq_decimal, repr_eq_decimal]

theorem Bucket.Coherente.anchor_mem {W : ℚ} {b : Bucket} (h : b.Coherente W) :
    ∃ w ∈ b.palabras, w.start_time = b.anchor := by
  have h1 := h.1
  cases hp : b.palabras with
  | nil => rw [hp] at h1; simp at h1
  | cons w r =>
    rw [hp] at h1
    simp only [List.head?_cons, Option.map_some', Option.some.injEq] at h1
    exact ⟨w, List.mem_cons_self w r, h1⟩

theorem Bucket.Coherente.fin_mem {W : ℚ} {b : Bucket} (h : b.Coherente W) :
    ∃ w ∈ b.palabras, w.start_time = b.fin := by
  have h1 := h.2.1
  cases hl : b.palabras.getLast? with
  | none => rw [hl] at h1; simp at h1
  | some u =>
    rw [hl] at h1
    simp only [Option.map_some', Option.some.injEq] at h1
    exact ⟨u, List.mem_of_getLast?_eq_some hl, h1⟩

/-- C8. With non-negative start times every bucket is displayed as `[M1:S1 - M2:S2]`, a
newline and its text: `M1` the whole minutes of the anchor in decimal without padding, `S1`
the whole seconds of the anchor within the minute on exactly two digits, `M2` and `S2` the
same for the `start_time` of the last word of the bucket, the text the words joined by single
spaces and trimmed; the page shows these renderings joined by a blank line. -/
theorem viewTimestamped_formato (ws : List TimedWord) (hne : ws ≠ [])
    (hpos : ∀ w ∈ ws, 0 ≤ w.start_time) :
    viewTimestamped ws = Except.ok (Efecto.textContent
        (Array_join "\n\n" ((spec_groupByTimeWindow ws 10).map Bucket.render))) ∧
      bloquesTimestamped ws = Except.ok ((spec_groupByTimeWindow ws 10).map Bucket.render) ∧
      ∀ b ∈ spec_groupByTimeWindow ws 10,
        b.render = "[" ++ decimal ⌊b.anchor / 60⌋₊ ++ ":" ++ dosDigitos ⌊resto b.anchor 60⌋₊ ++
            " - " ++ decimal ⌊b.fin / 60⌋₊ ++ ":" ++ dosDigitos ⌊resto b.fin 60⌋₊ ++ "]" ++
            "\n" ++ String_trim (Array_join " " (b.palabras.map (fun w => w.word))) ∧
          ⌊resto b.anchor 60⌋₊ < 60 ∧ ⌊resto b.fin 60⌋₊ < 60 ∧
          b.palabras.head?.map (fun w => w.start_time) = some b.anchor ∧
          b.palabras.getLast?.map (fun w => w.start_time) = some b.fin := by
  refine ⟨viewTimestamped_eq ws hne, bloquesTimestamped_eq ws hne, ?_⟩
  intro b hb
  have hc := (spec_groupByTimeWindow_props 10 (by norm_num) ws).2.1 b hb
  have hsub := palabras_sublist 10 (by norm_num) ws b hb
  obtain ⟨wa, hwa, hwa2⟩ := hc.anchor_mem
  obtain ⟨wf, hwf, hwf2⟩ := hc.fin_mem
  have ha : 0 ≤ b.anchor := by rw [← hwa2]; exact hpos wa (hsub.subset hwa)
  have hf : 0 ≤ b.fin := by rw [← hwf2]; exact hpos wf (hsub.subset hwf)
  have h60 : (0 : ℚ) < 60 := by norm_num
  refine ⟨?_, ?_, ?_, hc.1, hc.2.1⟩
  · unfold Bucket.render Bucket.texto
    rw [etiqueta_nonneg _ _ ha hf]
  · rw [Nat.floor_lt (resto_nonneg _ 60 h60)]; exact_mod_cast resto_lt b.anchor 60 h60
  · rw [Nat.floor_lt (resto_nonneg _ 60 h60)]; exact_mod_cast resto_lt b.fin 60 h60

theorem viewTimestamped_formato_witness :
    (([⟨"a", 0, 1⟩] : List TimedWord) ≠ [] ∧
        ∀ w ∈ ([⟨"a", 0, 1⟩] : List TimedWord), 0 ≤ w.start_time) ∧
      viewTimestamped [⟨"a", 0, 1⟩] = Except.ok (Efecto.textContent
        (Array_join "\n\n" ((spec_groupByTimeWindow [⟨"a", 0, 1⟩] 10).map Bucket.render))) :=
  ⟨⟨by simp, by simp⟩, (viewTimestamped_formato [⟨"a", 0, 1⟩] (by simp) (by simp)).1⟩

theorem sinEspaciosExtremos_iff (s : String) : sinEspaciosExtremos s = true ↔ Limpia s.data := by
  unfold sinEspaciosExtremos Limpia
  cases h1 : s.data.head? with
  | none => simp
  | some a =>
    cases h2 : s.data.getLast? with
    | none => simp
    | some b => simp

theorem Limpia.trimChars {l : List Char} (h : Limpia l) : trimChars l = l := by
  obtain ⟨a, b, ha, hb, ea, eb⟩ := h
  rw [trimChars_eq]
  cases l with
  | nil => simp at ha
  | cons c cs =>
    simp only [List.head?_cons, Option.some.injEq] at ha
    subst ha
    rw [List.dropWhile_cons_of_neg (by simp [ea]), List.rdropWhile_eq_self_iff]
    intro hl
    rw [List.getLast?_eq_getLast _ hl] at hb
    simp only [Option.some.injEq] at hb
    rw [hb, eb]
    simp

theorem Limpia.append {l1 l2 : List Char} (m : List Char) (h1 : Limpia l1) (h2 : Limpia l2) :
    Limpia (l1 ++ m ++ l2) := by
  obtain ⟨a, _, ha, _, ea, _⟩ := h1
  obtain ⟨_, b, _, hb, _, eb⟩ := h2
  refine ⟨a, b, ?_, ?_, ea, eb⟩
  · simp [List.head?_append, ha]
  · simp [List.getLast?_append, hb]

theorem Limpia.join (l : List String) (hne : l ≠ []) (h : ∀ s ∈ l, Limpia s.data) :
    Limpia (Array_join " " l).data := by
  induction l with
  | nil => exact absurd rfl hne
  | cons s r ih =>
    cases r with
    | nil => simpa [Array_join] using h s (List.mem_cons_self s [])
    | cons s2 r2 =>
      have h2 := ih (List.cons_ne_nil s2 r2) (fun x hx => h x (List.mem_cons_of_mem s hx))
      simp only [Array_join, String.data_append]
      exact Limpia.append _ (h s (List.mem_cons_self s _)) h2

/-- C10. When no word is empty or has white space at either end, the texts of the buckets
joined by single spaces are the input words joined by single spaces, and there is at least
one bucket; with an empty word, or a word that starts with a space, the trimmed texts lose a
space and the two strings differ. -/
theorem bloquesTimestamped_textos (ws : List TimedWord) (hne : ws ≠ [])
    (hlimpias : ∀ w ∈ ws, sinEspaciosExtremos w.word = true) :
    bloquesTimestamped ws = Except.ok ((spec_groupByTimeWindow ws 10).map Bucket.render) ∧
      Array_join " " ((spec_groupByTimeWindow ws 10).map Bucket.texto) =
        Array_join " " (ws.map (fun w => w.word)) ∧
      1 ≤ (spec_groupByTimeWindow ws 10).length ∧
      (Array_join " " ((spec_groupByTimeWindow [⟨"", 0, 1⟩, ⟨"a", 1, 2⟩] 10).map Bucket.texto) = "a" ∧
        Array_join " " (([⟨"", 0, 1⟩, ⟨"a", 1, 2⟩] : List TimedWord).map (fun w => w.word)) = " a") ∧
      (Array_join " " ((spec_groupByTimeWindow [⟨" a", 0, 1⟩] 10).map Bucket.texto) = "a" ∧
        Array_join " " (([⟨" a", 0, 1⟩] : List TimedWord).map (fun w => w.word)) = " a") := by
  obtain ⟨i1, i2, _, _⟩ := spec_groupByTimeWindow_props 10 (by norm_num) ws
  refine ⟨bloquesTimestamped_eq ws hne, ?_, ?_, ?_, ?_⟩
  · have ht : (spec_groupByTimeWindow ws 10).map Bucket.texto =
        ((spec_groupByTimeWindow ws 10).map
          (fun b => b.palabras.map (fun w => w.word))).map (Array_join " ") := by
      rw [List.map_map]
      apply List.map_congr_left
      intro b hb
      have hsub := palabras_sublist 10 (by norm_num) ws b hb
      have hl : Limpia (Array_join " " (b.palabras.map (fun w => w.word))).data := by
        apply Limpia.join
        · simpa using (i2 b hb).ne_nil
        · intro s hs
          rw [List.mem_map] at hs
          obtain ⟨w, hw, rfl⟩ := hs
          exact (sinEspaciosExtremos_iff _).mp (hlimpias w (hsub.subset hw))
      simp only [Function.comp, Bucket.texto, String_trim, hl.trimChars]
    rw [ht, Array_join_flatten]
    · have : ((spec_groupByTimeWindow ws 10).map
          (fun b => b.palabras.map (fun w => w.word))).flatten =
          (((spec_groupByTimeWindow ws 10).map (fun b => b.palabras)).flatten).map
            (fun w => w.word) := by
        rw [List.map_flatten, List.map_map]
        rfl
      rw [this, i1]
    · intro l hl
      rw [List.mem_map] at hl
      obtain ⟨b, hb, rfl⟩ := hl
      simpa using (i2 b hb).ne_nil
  · cases hs : spec_groupByTimeWindow ws 10 with
    | nil =>
      rw [hs] at i1
      simp at i1
      exact absurd i1 hne
    | cons b r => simp
  · constructor <;> with_unfolding_all decide
  · constructor <;> with_unfolding_all decide

theorem bloquesTimestamped_textos_witness :
    (([⟨"a", 0, 1⟩, ⟨"b", 30, 31⟩] : List TimedWord) ≠ [] ∧
        ∀ w ∈ ([⟨"a", 0, 1⟩, ⟨"b", 30, 31⟩] : List TimedWord), sinEspaciosExtremos w.word = true) ∧
      Array_join " " ((spec_groupByTimeWindow [⟨"a", 0, 1⟩, ⟨"b", 30, 31⟩] 10).map Bucket.texto) =
        Array_join " " (([⟨"a", 0, 1⟩, ⟨"b", 30, 31⟩] : List TimedWord).map (fun w => w.word)) :=
  ⟨⟨by simp, by decide⟩,
    (bloquesTimestamped_textos [⟨"a", 0, 1⟩, ⟨"b", 30, 31⟩] (by simp) (by decide)).2.1⟩

end Desgrabador
